import Mathlib

/-!
A shallow embedding of the ranking engine of `src/analyzer.py`
(`ContextAnalyzer.get_ranked_context`) together with theorems settling the
spec's claims about it.

Modelling decisions:
* A candidate record (`Dict[str, str]` in the source) is a structure of
  optional string fields; `p.get(key, '')` becomes `Option.getD _ ""`.
* The sentence-transformer backend is abstracted as a `Scorer`: a pure
  function from the topic string and a candidate text to a rational
  cosine-similarity score.  `self.model` is `Option Scorer` (`None` when
  `SentenceTransformer` failed to load in `__init__`).
* `np.argsort` on the negated score vector is modelled by `argsort` below:
  an ascending sort of the index list `[0, …, n-1]` keyed by the entries,
  with exact ties kept in index order.  numpy's default kind is
  `quicksort` (introsort), which numpy documents as NOT stable; numpy runs
  a stable insertion sort only on partitions of at most 16 elements, so
  this stable model coincides with numpy exactly on arrays of fewer than
  17 elements and is otherwise one of the score-sorted permutations numpy
  may produce.  Every theorem proved below about `get_ranked_context` is
  invariant under the tie order (length, descending scores, membership,
  index distinctness), so none of them depends on this choice; stability
  itself is treated separately (claim C4).
* Python's slice `xs[:top_k]` for an `int` `top_k` (including `0` and
  negative values) is modelled by `pySlice`.
-/

/-- A funding-announcement record as collected upstream: a string dictionary
with optional keys.  `get_ranked_context` reads only `title` and
`department`; the remaining comparison fields named by the spec (goal,
content, keyword) are carried so that the spec-side normalizer can be
stated against the same record type. -/
structure Candidate where
  title : Option String
  department : Option String
  goal : Option String
  content : Option String
  keyword : Option String
deriving DecidableEq

/-- The record with every field absent. -/
def emptyCandidate : Candidate := ⟨none, none, none, none, none⟩

/-- The comparison text built at `src/analyzer.py` line 45:
`f"{p.get('title', '')} ({p.get('department', '')})"`. -/
def context_text (p : Candidate) : String :=
  p.title.getD "" ++ " (" ++ p.department.getD "" ++ ")"

/-- The Field Normalizer as worded by the spec (§4.1): concatenate title,
goal, content, keyword in that fixed order, joined with a single space,
absent fields as empty strings.  Stated only to be compared with the
source's `context_text`. -/
def spec_comparison_text (p : Candidate) : String :=
  String.intercalate " "
    [p.title.getD "", p.goal.getD "", p.content.getD "", p.keyword.getD ""]

/-- The embedding backend abstracted to its observable effect on ranking:
`encode` of the topic, `encode` of a candidate text and `util.cos_sim`
compose to one similarity score per (topic, text) pair. -/
abbrev Scorer := String → String → ℚ

/-- `ContextAnalyzer`: `__init__` stores the loaded model, or `None` when
`SentenceTransformer(model_name)` raised (`src/analyzer.py` lines 17-22). -/
structure ContextAnalyzer where
  model : Option Scorer

/-- The constant-zero backend, used to instantiate theorems at concrete
inputs. -/
def zeroScorer : Scorer := fun _ _ => 0

/-- Index order used to model `np.argsort keys`: index `i` comes before
index `j` when its key is smaller, or on an exact key tie when `i ≤ j`.
This is a total linear order on indices. -/
def argRel (keys : List ℚ) (i j : ℕ) : Prop :=
  keys.getD i 0 < keys.getD j 0 ∨ (keys.getD i 0 = keys.getD j 0 ∧ i ≤ j)

instance (keys : List ℚ) : DecidableRel (argRel keys) := fun i j => by
  unfold argRel; exact inferInstance

instance (keys : List ℚ) : IsTotal ℕ (argRel keys) where
  total i j := by
    rcases lt_trichotomy (keys.getD i 0) (keys.getD j 0) with h | h | h
    · exact Or.inl (Or.inl h)
    · rcases Nat.le_total i j with hij | hij
      · exact Or.inl (Or.inr ⟨h, hij⟩)
      · exact Or.inr (Or.inr ⟨h.symm, hij⟩)
    · exact Or.inr (Or.inl h)

instance (keys : List ℚ) : IsTrans ℕ (argRel keys) where
  trans i j k hij hjk := by
    rcases hij with hij | ⟨hij, hij2⟩ <;> rcases hjk with hjk | ⟨hjk, hjk2⟩
    · exact Or.inl (hij.trans hjk)
    · exact Or.inl (hjk ▸ hij)
    · exact Or.inl (hij ▸ hjk)
    · exact Or.inr ⟨hij.trans hjk, hij2.trans hjk2⟩

/-- Model of `np.argsort(keys)` for a 1-D array: the index list
`[0, …, n-1]` sorted ascending by key.  Ties are kept in index order (see
the file header for the fidelity of this choice against numpy's default
`quicksort` kind). -/
def argsort (keys : List ℚ) : List ℕ :=
  List.insertionSort (argRel keys) (List.range keys.length)

/-- Python slice `xs[:k]` for an `int` `k`: the first `k` elements when
`0 ≤ k`, and all but the last `|k|` elements when `k < 0` (clamped at the
empty list). -/
def pySlice {α : Type} (k : ℤ) (l : List α) : List α :=
  if 0 ≤ k then l.take k.toNat else l.take ((l.length : ℤ) + k).toNat

/-- `ContextAnalyzer.get_ranked_context` (`src/analyzer.py` lines 24-61).
Returns `[]` when the model failed to load (line 36-38) and when the
candidate list is empty (line 39-41); otherwise builds the comparison
texts (line 45), scores each against the topic (lines 48-52), takes
`np.argsort(-cos_scores)[:top_k]` (line 56) and reads the candidates back
off those indices (line 58).  The source default for `top_k` is 5. -/
def get_ranked_context (self : ContextAnalyzer) (user_topic : String)
    (projects : List Candidate) (top_k : ℤ) : List Candidate :=
  match self.model with
  | none => []
  | some model =>
    if projects.isEmpty then []
    else
      let context_texts := projects.map context_text
      let cos_scores := context_texts.map (fun t => model user_topic t)
      let top_results_indices := pySlice top_k (argsort (cos_scores.map (fun s => -s)))
      top_results_indices.map (fun i => projects.getD i emptyCandidate)

/-- The negated score vector `-cos_scores` handed to `np.argsort` at line
56, written directly over the candidate list. -/
def keysOf (s : Scorer) (topic : String) (ps : List Candidate) : List ℚ :=
  ps.map (fun p => -(s topic (context_text p)))

lemma argsort_perm (keys : List ℚ) :
    (argsort keys).Perm (List.range keys.length) :=
  List.perm_insertionSort _ _

lemma argsort_sorted (keys : List ℚ) :
    List.Sorted (argRel keys) (argsort keys) :=
  List.sorted_insertionSort _ _

lemma argsort_length (keys : List ℚ) : (argsort keys).length = keys.length :=
  (argsort_perm keys).length_eq.trans (List.length_range _)

lemma argsort_nodup (keys : List ℚ) : (argsort keys).Nodup :=
  (argsort_perm keys).nodup_iff.2 (List.nodup_range _)

lemma mem_argsort_lt {keys : List ℚ} {i : ℕ} (h : i ∈ argsort keys) :
    i < keys.length :=
  List.mem_range.1 ((argsort_perm keys).mem_iff.1 h)

lemma pySlice_sublist {α : Type} (k : ℤ) (l : List α) :
    (pySlice k l).Sublist l := by
  unfold pySlice; split <;> exact List.take_sublist _ _

lemma pySlice_nonneg_length {α : Type} {k : ℤ} (hk : 0 ≤ k) (l : List α) :
    (pySlice k l).length = min k.toNat l.length := by
  simp [pySlice, hk]

lemma keysOf_length (s : Scorer) (topic : String) (ps : List Candidate) :
    (keysOf s topic ps).length = ps.length := by
  simp [keysOf]

lemma keysOf_getD {s : Scorer} {topic : String} {ps : List Candidate} {i : ℕ}
    (h : i < ps.length) :
    (keysOf s topic ps).getD i 0
      = -(s topic (context_text (ps.getD i emptyCandidate))) := by
  rw [List.getD_eq_getElem _ _ (by simpa [keysOf] using h),
    List.getD_eq_getElem _ _ h]
  simp [keysOf]

lemma get_ranked_context_some (s : Scorer) (topic : String)
    (ps : List Candidate) (k : ℤ) (h : ps ≠ []) :
    get_ranked_context ⟨some s⟩ topic ps k =
      (pySlice k (argsort (keysOf s topic ps))).map
        (fun i => ps.getD i emptyCandidate) := by
  cases ps with
  | nil => exact absurd rfl h
  | cons p ps =>
    simp only [get_ranked_context, List.isEmpty_cons, keysOf, List.map_map]
    rfl

/-- A concrete three-candidate list used to instantiate theorems with
hypotheses. -/
def sampleProjects : List Candidate :=
  [emptyCandidate, ⟨some "a", none, none, none, none⟩,
    ⟨some "b", some "d", none, none, none⟩]

/-- C1: with a loaded backend, a non-empty topic and K ≥ 1, the output of
`get_ranked_context` is ordered descending by similarity against the
topic: each adjacent pair of returned candidates has the earlier one's
score at least the later one's. -/
theorem ranked_scores_descending (s : Scorer) (topic : String)
    (ps : List Candidate) (K : ℤ) (htopic : topic ≠ "") (hK : 1 ≤ K) :
    (get_ranked_context ⟨some s⟩ topic ps K).Chain'
      (fun c d => s topic (context_text d) ≤ s topic (context_text c)) := by
  rcases eq_or_ne ps [] with rfl | h
  · simp [get_ranked_context]
  · rw [get_ranked_context_some s topic ps K h]
    apply List.Pairwise.chain'
    rw [List.pairwise_map]
    have hsor : (pySlice K (argsort (keysOf s topic ps))).Pairwise
        (argRel (keysOf s topic ps)) :=
      List.Pairwise.sublist (pySlice_sublist _ _) (argsort_sorted _)
    refine hsor.imp_of_mem ?_
    intro i j hi hj hr
    have hi2 : i < ps.length := by
      have := mem_argsort_lt ((pySlice_sublist _ _).subset hi)
      simpa [keysOf] using this
    have hj2 : j < ps.length := by
      have := mem_argsort_lt ((pySlice_sublist _ _).subset hj)
      simpa [keysOf] using this
    have hle : (keysOf s topic ps).getD i 0 ≤ (keysOf s topic ps).getD j 0 := by
      rcases hr with hlt | ⟨heq, _⟩
      · exact le_of_lt hlt
      · exact le_of_eq heq
    rw [keysOf_getD hi2, keysOf_getD hj2] at hle
    linarith

/-- Witness for C1 at a concrete input. -/
theorem ranked_scores_descending_witness :
    ("ai" ≠ "" ∧ (1 : ℤ) ≤ 2) ∧
      (get_ranked_context ⟨some zeroScorer⟩ "ai" sampleProjects 2).Chain'
        (fun c d =>
          zeroScorer "ai" (context_text d) ≤ zeroScorer "ai" (context_text c)) :=
  ⟨⟨by decide, by decide⟩,
    ranked_scores_descending zeroScorer "ai" sampleProjects 2
      (by decide) (by decide)⟩

/-- C2: with a loaded backend, a non-empty topic and K ≥ 1, the output has
exactly min(K, n) elements for an n-candidate input; fewer than K
candidates are all returned, never padded, never an error. -/
theorem ranked_length (s : Scorer) (topic : String) (ps : List Candidate)
    (K : ℤ) (htopic : topic ≠ "") (hK : 1 ≤ K) :
    (get_ranked_context ⟨some s⟩ topic ps K).length
      = min K.toNat ps.length := by
  rcases eq_or_ne ps [] with rfl | h
  · simp [get_ranked_context]
  · rw [get_ranked_context_some s topic ps K h, List.length_map,
      pySlice_nonneg_length (le_trans zero_le_one hK), argsort_length,
      keysOf_length]

/-- Witness for C2 at a concrete input. -/
theorem ranked_length_witness :
    ("ai" ≠ "" ∧ (1 : ℤ) ≤ 5) ∧
      (get_ranked_context ⟨some zeroScorer⟩ "ai" sampleProjects 5).length
        = min (5 : ℤ).toNat sampleProjects.length :=
  ⟨⟨by decide, by decide⟩,
    ranked_length zeroScorer "ai" sampleProjects 5 (by decide) (by decide)⟩

/-- C3: ranking an empty candidate list returns the empty list for every
analyzer, topic and K, and the result does not depend on the scorer — the
embedding backend is never consulted on that path. -/
theorem ranked_empty_candidates (a : ContextAnalyzer) (topic : String)
    (k : ℤ) :
    get_ranked_context a topic [] k = [] ∧
      ∀ s₁ s₂ : Scorer,
        get_ranked_context ⟨some s₁⟩ topic [] k
          = get_ranked_context ⟨some s₂⟩ topic [] k := by
  refine ⟨?_, fun s₁ s₂ => rfl⟩
  rcases a with ⟨m⟩
  cases m <;> rfl

/-- C5: `get_ranked_context` is deterministic — its output is a function of
the held model and the (topic, candidates, K) arguments alone, so two
analyzers holding the same scorer agree on every input. -/
theorem ranked_deterministic (a₁ a₂ : ContextAnalyzer)
    (h : a₁.model = a₂.model) (topic : String) (ps : List Candidate)
    (k : ℤ) :
    get_ranked_context a₁ topic ps k = get_ranked_context a₂ topic ps k := by
  rcases a₁ with ⟨m₁⟩
  rcases a₂ with ⟨m₂⟩
  cases h
  rfl

/-- Witness for C5 at a concrete input. -/
theorem ranked_deterministic_witness :
    (ContextAnalyzer.mk (some zeroScorer)).model
        = (ContextAnalyzer.mk (some zeroScorer)).model ∧
      get_ranked_context ⟨some zeroScorer⟩ "ai" sampleProjects 5
        = get_ranked_context ⟨some zeroScorer⟩ "ai" sampleProjects 5 :=
  ⟨rfl, ranked_deterministic ⟨some zeroScorer⟩ ⟨some zeroScorer⟩ rfl
    "ai" sampleProjects 5⟩

/-- C9: every returned record is an element of the input list, the output
reads off pairwise-distinct input positions, and (the model being a pure
function) the input list is not mutated. -/
theorem ranked_from_input (a : ContextAnalyzer) (topic : String)
    (ps : List Candidate) (k : ℤ) :
    (∀ c ∈ get_ranked_context a topic ps k, c ∈ ps) ∧
      ∃ idxs : List ℕ, idxs.Nodup ∧ (∀ i ∈ idxs, i < ps.length) ∧
        get_ranked_context a topic ps k
          = idxs.map (fun i => ps.getD i emptyCandidate) := by
  have key : ∃ idxs : List ℕ, idxs.Nodup ∧ (∀ i ∈ idxs, i < ps.length) ∧
      get_ranked_context a topic ps k
        = idxs.map (fun i => ps.getD i emptyCandidate) := by
    rcases a with ⟨m⟩
    cases m with
    | none => exact ⟨[], by simp, by simp, rfl⟩
    | some s =>
      rcases eq_or_ne ps [] with rfl | h
      · exact ⟨[], by simp, by simp, rfl⟩
      · refine ⟨pySlice k (argsort (keysOf s topic ps)), ?_, ?_,
          get_ranked_context_some s topic ps k h⟩
        · exact (pySlice_sublist _ _).nodup (argsort_nodup _)
        · intro i hi
          have := mem_argsort_lt ((pySlice_sublist _ _).subset hi)
          simpa [keysOf] using this
  obtain ⟨idxs, hnd, hlt, heq⟩ := key
  refine ⟨?_, idxs, hnd, hlt, heq⟩
  intro c hc
  rw [heq] at hc
  obtain ⟨i, hi, rfl⟩ := List.mem_map.1 hc
  rw [List.getD_eq_getElem _ _ (hlt i hi)]
  exact List.getElem_mem _

/-- C10: outside the K ≥ 1 precondition the function still returns without
raising: top_k = 0 yields the empty list, and a negative top_k yields
max(0, n + top_k) candidates, following Python slice semantics of
`[:top_k]`. -/
theorem ranked_top_k_out_of_range (s : Scorer) (topic : String)
    (ps : List Candidate) :
    get_ranked_context ⟨some s⟩ topic ps 0 = [] ∧
      ∀ k : ℤ, k < 0 →
        (get_ranked_context ⟨some s⟩ topic ps k).length
          = ((ps.length : ℤ) + k).toNat := by
  constructor
  · rcases eq_or_ne ps [] with rfl | h
    · rfl
    · rw [get_ranked_context_some s topic ps 0 h]
      simp [pySlice]
  · intro k hk
    rcases eq_or_ne ps [] with rfl | h
    · simp only [get_ranked_context, List.isEmpty_nil, if_pos rfl,
        List.length_nil, List.length]
      omega
    · rw [get_ranked_context_some s topic ps k h, List.length_map]
      simp only [pySlice, if_neg (not_le.2 hk), List.length_take,
        argsort_length, keysOf_length]
      omega

/-- Witness for C10 at a concrete input. -/
theorem ranked_top_k_out_of_range_witness :
    (-2 : ℤ) < 0 ∧
      get_ranked_context ⟨some zeroScorer⟩ "ai" sampleProjects 0 = [] ∧
      (get_ranked_context ⟨some zeroScorer⟩ "ai" sampleProjects (-2)).length
        = ((sampleProjects.length : ℤ) + (-2)).toNat :=
  ⟨by decide, (ranked_top_k_out_of_range zeroScorer "ai" sampleProjects).1,
    (ranked_top_k_out_of_range zeroScorer "ai" sampleProjects).2 (-2)
      (by decide)⟩

/-- C6, counterexample: the Field Normalizer applied to the record with
every field absent yields the string " ()", not the empty string the
claim asserts. -/
theorem normalizer_empty_record_counterexample :
    context_text emptyCandidate = " ()" ∧ context_text emptyCandidate ≠ "" :=
  ⟨rfl, by decide⟩

/-- C6, amended: a candidate with every comparison field absent normalizes
to the string " ()" (empty title, space, parenthesized empty department);
no error is raised and the candidate is ranked like any other, its score
being whatever the backend assigns to " ()" — not forced to zero. -/
theorem normalizer_empty_record_amended :
    ∀ (s : Scorer) (topic : String),
      context_text emptyCandidate = " ()" ∧
        get_ranked_context ⟨some s⟩ topic [emptyCandidate] 1
          = [emptyCandidate] :=
  fun s topic => ⟨rfl, rfl⟩

/-- C7, counterexample: with the backend unavailable (model `None`) the
call on a non-empty candidate list returns the plain empty list — exactly
the value returned on the normal empty-candidate path — not a distinctly
tagged failure result. -/
theorem backend_unavailable_counterexample :
    get_ranked_context ⟨none⟩ "ai" [emptyCandidate] 5 = [] ∧
      get_ranked_context ⟨none⟩ "ai" [emptyCandidate] 5
        = get_ranked_context ⟨some zeroScorer⟩ "ai" [] 5 :=
  ⟨rfl, rfl⟩

/-- C7, amended: when the backend failed to initialize, the function logs
and returns the empty list for every input — a value indistinguishable
from the normal no-results return, leaving the caller unable to tell
BackendUnavailable from EmptyCandidateSet through the return value. -/
theorem backend_unavailable_amended :
    ∀ (topic : String) (ps : List Candidate) (k : ℤ),
      get_ranked_context ⟨none⟩ topic ps k = [] ∧
        get_ranked_context ⟨none⟩ topic ps k
          = get_ranked_context ⟨some zeroScorer⟩ topic [] k :=
  fun _ _ _ => ⟨rfl, rfl⟩

/-- A record holding a title and a goal, on which the source normalizer and
the spec's normalizer disagree. -/
def titledGoalCandidate : Candidate := ⟨some "t", none, some "g", none, none⟩

/-- C8, counterexample: the comparison text the code builds differs from
the spec's space-joined concatenation of title, goal, content, keyword —
on a record with title "t" and goal "g" the code yields "t ()" while the
spec's policy yields "t g  ". -/
theorem comparison_text_counterexample :
    context_text titledGoalCandidate ≠ spec_comparison_text titledGoalCandidate ∧
      context_text titledGoalCandidate = "t ()" ∧
      spec_comparison_text titledGoalCandidate = "t g  " :=
  ⟨by decide, rfl, rfl⟩

/-- C8, amended: the comparison text equals title ++ " (" ++ department ++
")" with absent fields as empty strings; it depends only on the title and
department fields (goal, content/abstract/summary and keyword are never
read) and no error is raised. -/
theorem comparison_text_amended (c c2 : Candidate) (ht : c.title = c2.title)
    (hd : c.department = c2.department) :
    context_text c
        = c.title.getD "" ++ " (" ++ c.department.getD "" ++ ")" ∧
      context_text c = context_text c2 := by
  refine ⟨rfl, ?_⟩
  unfold context_text
  rw [ht, hd]

/-- Witness for C8's amended claim at a concrete input. -/
theorem comparison_text_amended_witness :
    (titledGoalCandidate.title
        = (⟨some "t", none, none, some "z", none⟩ : Candidate).title ∧
      titledGoalCandidate.department
        = (⟨some "t", none, none, some "z", none⟩ : Candidate).department) ∧
      (context_text titledGoalCandidate
          = titledGoalCandidate.title.getD "" ++ " ("
              ++ titledGoalCandidate.department.getD "" ++ ")" ∧
        context_text titledGoalCandidate
          = context_text ⟨some "t", none, none, some "z", none⟩) :=
  ⟨⟨rfl, rfl⟩,
    comparison_text_amended titledGoalCandidate
      ⟨some "t", none, none, some "z", none⟩ rfl rfl⟩
